import Mathlib

/-! # Verification of the local-site phase engine (`src/local.py`)

Shallow embedding of the local computation chain of the decentralized
VBM regression node: the phase dispatcher (`__main__`), the
initialization phase (`local_0` / `average_nifti`), the statistics
phase (`local_1` with its multiply kernels `calc_XtransposeX_local`
and `calc_Xtransposey_local`) and the error-decomposition phase
(`local_2`).

Numeric model: an IEEE-754 double is embedded as `FVal`, an exact
rational payload together with the special values `inf`, `ninf` and
`nan`; rounding is abstracted away, while the propagation rules for
the special values follow IEEE-754 arithmetic.  Matrices (numpy 2-D
`float64` arrays) are embedded as `List (List FVal)`, row major, and
the cache directory as an association list from file names to blobs.
-/

namespace DrneVbm

/-- Model of a `float64` value: exact rational payload plus the IEEE special
values `inf`, `-inf` and `nan` (rounding is abstracted away). -/
inductive FVal where
  | fin (q : ℚ)
  | inf
  | ninf
  | nan
deriving DecidableEq

/-- IEEE negation on the value model. -/
def fneg : FVal → FVal
  | .fin q => .fin (-q)
  | .inf => .ninf
  | .ninf => .inf
  | .nan => .nan

/-- IEEE addition on the value model: `nan` absorbs, `inf + (-inf) = nan`. -/
def fadd : FVal → FVal → FVal
  | .nan, _ => .nan
  | _, .nan => .nan
  | .fin a, .fin b => .fin (a + b)
  | .fin _, .inf => .inf
  | .inf, .fin _ => .inf
  | .fin _, .ninf => .ninf
  | .ninf, .fin _ => .ninf
  | .inf, .inf => .inf
  | .ninf, .ninf => .ninf
  | .inf, .ninf => .nan
  | .ninf, .inf => .nan

/-- IEEE multiplication on the value model: `nan` absorbs, `0 * inf = nan`,
otherwise infinities follow the sign rule. -/
def fmul : FVal → FVal → FVal
  | .nan, _ => .nan
  | _, .nan => .nan
  | .fin a, .fin b => .fin (a * b)
  | .fin a, .inf => if 0 < a then .inf else if a < 0 then .ninf else .nan
  | .inf, .fin a => if 0 < a then .inf else if a < 0 then .ninf else .nan
  | .fin a, .ninf => if 0 < a then .ninf else if a < 0 then .inf else .nan
  | .ninf, .fin a => if 0 < a then .ninf else if a < 0 then .inf else .nan
  | .inf, .inf => .inf
  | .ninf, .ninf => .inf
  | .inf, .ninf => .ninf
  | .ninf, .inf => .ninf

/-- IEEE subtraction, `a - b = a + (-b)`. -/
def fsub (a b : FVal) : FVal := fadd a (fneg b)

/-- Squaring, `np.square`. -/
def fsq (a : FVal) : FVal := fmul a a

/-- Division of a value by a (positive) subject count, as in the group
average `appended_data / len(covar_x.index)`. -/
def fdivNat (a : FVal) (n : ℕ) : FVal :=
  match a with
  | .fin q => .fin (q / n)
  | .inf => .inf
  | .ninf => .ninf
  | .nan => .nan

/-- Finiteness test `np.isfinite`: true exactly on finite payloads. -/
def isFiniteF : FVal → Bool
  | .fin _ => true
  | _ => false

/-- NaN test `np.isnan`. -/
def isNaNF : FVal → Bool
  | .nan => true
  | _ => false

/-- Sum of a list of values (`np.sum`, exact in the payload). -/
def fsum (l : List FVal) : FVal := l.foldr fadd (.fin 0)

/-- Dot product of two vectors. -/
def dot (a b : List FVal) : FVal := fsum (List.zipWith fmul a b)

/-- Column count `M.shape[1]` of a (rectangular) row-major matrix. -/
def numCols (M : List (List FVal)) : ℕ := (M.headD []).length

/-- Column `j` of a row-major matrix (`M[:, j]`). -/
def col (M : List (List FVal)) (j : ℕ) : List FVal :=
  M.map (fun r => r.getD j (.fin 0))

/-- Matrix transpose (`M.T`). -/
def transposeM (M : List (List FVal)) : List (List FVal) :=
  (List.range (numCols M)).map (col M)

/-- Matrix product `A @ B`: entry `(i, j)` is the dot product of row `i`
of `A` with column `j` of `B`. -/
def matMul (A B : List (List FVal)) : List (List FVal) :=
  A.map (fun ra => (transposeM B).map (fun cb => dot ra cb))

/-- Kernel `calc_XtransposeX_local(biased_X)`: returns `biased_X.T @ biased_X`
(the `@jit` kernel of `local.py`). -/
def calc_XtransposeX_local (biased_X : List (List FVal)) : List (List FVal) :=
  matMul (transposeM biased_X) biased_X

/-- Kernel `calc_Xtransposey_local(biased_X, y)`: returns `biased_X.T @ y`
(the cast to double is the identity in the value model). -/
def calc_Xtransposey_local (biased_X y : List (List FVal)) : List (List FVal) :=
  matMul (transposeM biased_X) y

/-- The fatal errors `local.py` can raise. -/
inductive LocalError where
  /-- The `ValueError` ("Error occurred at Local") raised by the dispatcher. -/
  | protocolError
  /-- The `IndexError` raised by `covar_x.index[0]` on an empty subject table. -/
  | indexError
  /-- The `FileNotFoundError` raised by `np.load` on a missing cache entry. -/
  | fileNotFoundError
deriving DecidableEq

/-- The three local phase handlers. -/
inductive LocalPhase where
  | local0
  | local1
  | local2
deriving DecidableEq

/-- The `__main__` dispatcher of `local.py`: given the list `PHASE_KEY` of
computation-phase tags collected from the incoming message, select the
handler (`if not PHASE_KEY: ... elif "remote_0" in PHASE_KEY: ... elif
"remote_1" in PHASE_KEY: ... else: raise ValueError`). -/
def dispatch (phaseKey : List String) : Except LocalError LocalPhase :=
  if phaseKey = [] then .ok .local0
  else if "remote_0" ∈ phaseKey then .ok .local1
  else if "remote_1" ∈ phaseKey then .ok .local2
  else .error .protocolError

/-! ## The cache directory

One value per file name; `args_file` holds the verbatim phase-0
arguments (opaque here), `X.npy` / `y.npy` hold matrix dumps. -/

/-- A blob stored in the cache directory. -/
inductive CVal where
  /-- A JSON dump (the verbatim `args_file`), kept opaque. -/
  | jsonBlob (s : String)
  /-- An `np.save` matrix dump (`X.npy`, `y.npy`). -/
  | matBlob (m : List (List FVal))
deriving DecidableEq

/-- The cache directory: file name to blob. -/
abbrev CacheStore := List (String × CVal)

/-- Read a cache file (`read_file` / `np.load`). -/
def storeRead : CacheStore → String → Option CVal
  | [], _ => none
  | (k, v) :: rest, key => if k = key then some v else storeRead rest key

/-- Write a cache file (`write_file` / `np.save`), overwriting any
previous blob under the same name. -/
def storeWrite (store : CacheStore) (key : String) (v : CVal) : CacheStore :=
  (key, v) :: store.filter (fun kv => kv.1 ≠ key)

/-! ## Initialization phase: `average_nifti` -/

/-- Nonzero count `np.count_nonzero`. -/
def countNonzero (v : List FVal) : ℕ :=
  v.countP (fun x => !(x == FVal.fin 0))

/-- The exclusion test of `average_nifti`: the loaded volume is entirely
NaN, entirely zero, or empty
(`np.all(np.isnan(image_data)) or np.count_nonzero(image_data) == 0
or image_data.size == 0`). -/
def dropCond (v : List FVal) : Bool :=
  v.all isNaNF || countNonzero v == 0 || v.length == 0

/-- One `+=` step of the accumulation: `appended_data` starts as the
scalar `0`, so the first retained image is taken as is (adding exact
zero is the identity on every `FVal`), later images are added
elementwise. -/
def addVolume (acc : Option (List FVal)) (v : List FVal) : List FVal :=
  match acc with
  | none => v
  | some a => List.zipWith fadd a v

/-- The subject loop of `average_nifti`: walk the covariate index in
order; a `FileNotFoundError` (`load img = none`) or a volume failing
the validity test drops the subject, otherwise the subject is kept and
its volume accumulated.  Returns the retained index and the
accumulated sum (`none` when nothing was retained). -/
def nifti_loop (load : String → Option (List FVal))
    (acc : Option (List FVal)) (kept : List String) :
    List String → List String × Option (List FVal)
  | [] => (kept, acc)
  | img :: rest =>
    match load img with
    | none => nifti_loop load acc kept rest
    | some v =>
      if dropCond v then nifti_loop load acc kept rest
      else nifti_loop load (some (addVolume acc v)) (kept ++ [img]) rest

/-- Phase helper `average_nifti`: filter the subject table, average the retained
volumes.  On an empty retained table, `covar_x.index[0]` raises
`IndexError`; otherwise the result is the retained index together with
the average volume `appended_data / len(covar_x.index)` that is saved
as `avg_nifti.nii`. -/
def average_nifti (load : String → Option (List FVal)) (index : List String) :
    Except LocalError (List String × List FVal) :=
  match nifti_loop load none [] index with
  | ([], _) => .error .indexError
  | (img :: rest, acc) =>
    .ok (img :: rest,
      (acc.getD []).map (fun x => fdivNat x (img :: rest).length))

/-! ## Statistics phase: `local_1` -/

/-- The results `local_1` obtains from its external collaborators
(`vbm_parser`, `mean_and_len_y`, `local_stats_to_dict_numba`,
`add_site_covariates`, and the `lambda` recovered from the cached
`args_file`). -/
structure L1Ext where
  /-- The matrix `augmented_X.values` cast to double. -/
  biased_X : List (List FVal)
  /-- The response matrix `y`, one column per voxel. -/
  y : List (List FVal)
  /-- The `meanY_vector` from `mean_and_len_y`. -/
  meanY_vector : List FVal
  /-- The `lenY_vector` from `mean_and_len_y`. -/
  lenY_vector : List FVal
  /-- The `local_stats_list` (informational diagnostics). -/
  local_stats_list : List String
  /-- The column labels of `augmented_X`. -/
  X_labels : List String
  /-- The carried regularizer read back from the cached arguments. -/
  regularizer_l2 : FVal

/-- The numeric payload `local_1` writes to its `local_output` file. -/
structure L1Output where
  XtransposeX_local : List (List FVal)
  Xtransposey_local : List (List FVal)
  mean_y_local : List FVal
  count_local : List FVal
  local_stats_list : List String
  X_labels : List String
  regularizer_l2 : FVal

/-- The abbreviated document a phase writes to stdout: the phase tag and
the cache section. -/
structure PhaseDoc where
  computation_phase : String
  cacheSection : List (String × String)
deriving DecidableEq

/-- Phase `local_1`: compute `XtransposeX_local` and `Xtransposey_local` with
the dedicated kernels, dump the design and response matrices to the
cache (`X.npy`, `y.npy`), emit the numeric payload to the
`local_output` file and the phase tag `"local_1"` with the cache keys
to stdout. -/
def local_1 (ext : L1Ext) (store : CacheStore) :
    L1Output × PhaseDoc × CacheStore :=
  let XtransposeX_local := calc_XtransposeX_local ext.biased_X
  let Xtransposey_local := calc_Xtransposey_local ext.biased_X ext.y
  let store1 := storeWrite store "X.npy" (.matBlob ext.biased_X)
  let store2 := storeWrite store1 "y.npy" (.matBlob ext.y)
  ({ XtransposeX_local := XtransposeX_local
     Xtransposey_local := Xtransposey_local
     mean_y_local := ext.meanY_vector
     count_local := ext.lenY_vector
     local_stats_list := ext.local_stats_list
     X_labels := ext.X_labels
     regularizer_l2 := ext.regularizer_l2 },
   { computation_phase := "local_1"
     cacheSection := [("covariates", "X.npy"), ("dependents", "y.npy")] },
   store2)

/-- A matrix all of whose entries are finite. -/
def matAllFinite (M : List (List FVal)) : Bool :=
  M.all (fun r => r.all isFiniteF)

/-! ## Error-decomposition phase: `local_2` -/

/-- Modelled from the spec: `reg.sum_squared_error(X, y, beta)` lives in
`regression.py`, which is not part of the local source; per the spec it
is the sum over the site's subjects of the squared residual
`(y_i - (X @ beta)_i)^2`. -/
def sum_squared_error (X : List (List FVal)) (curr_y beta : List FVal) : FVal :=
  fsum (List.zipWith (fun row yi => fsq (fsub yi (dot row beta))) X curr_y)

/-- The per-voxel loop and the variance matrix of `local_2`: for every
voxel (column of `y`) append `reg.sum_squared_error(biased_X, y[:, v],
avg_beta_vector[v])` to `SSE_local` and
`np.sum(np.square(np.subtract(y[:, v], mean_y_global[v])))` to
`SST_local`; `varX_matrix_local = np.dot(biased_X.T, biased_X)`. -/
def local_2_compute (biased_X y : List (List FVal))
    (avg_beta_vector : List (List FVal)) (mean_y_global : List FVal) :
    List FVal × List FVal × List (List FVal) :=
  let SSE_local := (List.range (numCols y)).map (fun voxel =>
    sum_squared_error biased_X (col y voxel) (avg_beta_vector.getD voxel []))
  let SST_local := (List.range (numCols y)).map (fun voxel =>
    fsum ((col y voxel).map (fun yi =>
      fsq (fsub yi (mean_y_global.getD voxel (.fin 0))))))
  let varX_matrix_local := matMul (transposeM biased_X) biased_X
  (SSE_local, SST_local, varX_matrix_local)

/-- The aggregator payload of the `local_2` message. -/
structure L2Input where
  avg_beta_vector : List (List FVal)
  mean_y_global : List FVal

/-- The cache section carried in the `local_2` message
(covariates mapped to `X.npy`, dependents to `y.npy`). -/
structure L2CacheDict where
  covariates : String
  dependents : String

/-- The numeric payload `local_2` writes to its `local_output` file. -/
structure L2Output where
  SSE_local : List FVal
  SST_local : List FVal
  varX_matrix_local : List (List FVal)
deriving DecidableEq

/-- Phase `local_2`: load the cached design and response matrices (`np.load`
raises `FileNotFoundError` if a dump is missing or not a matrix),
compute the decomposition, write the numeric payload to the
`local_output` file, and emit the phase tag `"local_2"` with an empty
cache section; the cache directory is left untouched. -/
def local_2 (input : L2Input) (cacheDict : L2CacheDict) (store : CacheStore) :
    Except LocalError (L2Output × PhaseDoc × CacheStore) :=
  match storeRead store cacheDict.covariates, storeRead store cacheDict.dependents with
  | some (.matBlob biased_X), some (.matBlob y) =>
    let (SSE_local, SST_local, varX_matrix_local) :=
      local_2_compute biased_X y input.avg_beta_vector input.mean_y_global
    .ok ({ SSE_local := SSE_local
           SST_local := SST_local
           varX_matrix_local := varX_matrix_local },
         { computation_phase := "local_2", cacheSection := [] },
         store)
  | _, _ => .error .fileNotFoundError

/-! ## Derived notions used in the statements -/

/-- The subjects `average_nifti` retains: load succeeds and the volume
passes the validity test. -/
def keptSpec (load : String → Option (List FVal)) (index : List String) :
    List String :=
  index.filter (fun img => (load img).elim false (fun v => !dropCond v))

/-- Entry `(i, j)` of a row-major matrix, defaulting to `0`. -/
def entry (M : List (List FVal)) (i j : ℕ) : FVal :=
  (M.getD i []).getD j (.fin 0)

/-- A design matrix with no duplicated columns. -/
def noDupCols (X : List (List FVal)) : Prop :=
  ∀ j, j < numCols X → ∀ k, k < numCols X → j ≠ k → col X j ≠ col X k

instance (X : List (List FVal)) : Decidable (noDupCols X) := by
  unfold noDupCols; infer_instance

/-! ## Helper lemmas -/

theorem fmul_comm (a b : FVal) : fmul a b = fmul b a := by
  cases a <;> cases b <;> simp [fmul, mul_comm]

theorem fadd_fin_zero (a : FVal) : fadd a (.fin 0) = a := by
  cases a <;> simp [fadd]

theorem fadd_assoc (a b c : FVal) : fadd (fadd a b) c = fadd a (fadd b c) := by
  cases a <;> cases b <;> cases c <;> simp [fadd, add_assoc]

theorem dot_comm (a b : List FVal) : dot a b = dot b a := by
  unfold dot
  rw [List.zipWith_comm_of_comm fmul fmul_comm]

theorem range_map_getD {α : Type _} (f : ℕ → α) (n j : ℕ) (d : α) (h : j < n) :
    ((List.range n).map f).getD j d = f j := by
  rw [List.getD_eq_getElem _ d (by simpa using h)]
  simp

/-- The subject loop of `average_nifti` keeps exactly the subjects of
`keptSpec` (in order, after any previously kept ones) and accumulates
their volumes left to right. -/
theorem nifti_loop_eq (load : String → Option (List FVal))
    (index : List String) (acc : Option (List FVal)) (kept : List String) :
    nifti_loop load acc kept index =
      (kept ++ keptSpec load index,
       ((keptSpec load index).map (fun img => (load img).getD [])).foldl
         (fun a v => some (addVolume a v)) acc) := by
  induction index generalizing acc kept with
  | nil => simp [nifti_loop, keptSpec]
  | cons img rest ih =>
    unfold nifti_loop
    cases hl : load img with
    | none =>
      have hks : keptSpec load (img :: rest) = keptSpec load rest := by
        simp [keptSpec, List.filter_cons, hl]
      rw [hks]
      exact ih acc kept
    | some v =>
      by_cases hd : dropCond v
      · have hks : keptSpec load (img :: rest) = keptSpec load rest := by
          simp [keptSpec, List.filter_cons, hl, hd]
        rw [hks]
        simp only [hd, if_true]
        exact ih acc kept
      · have hks : keptSpec load (img :: rest) = img :: keptSpec load rest := by
          simp [keptSpec, List.filter_cons, hl, hd]
        rw [hks]
        simp only [hd, if_false]
        rw [ih (some (addVolume acc v)) (kept ++ [img])]
        simp [hl, List.append_assoc]

/-- Entrywise value of the volume accumulation started from an already
accumulated volume. -/
theorem fold_addVolume_some (L : ℕ) (vols : List (List FVal)) :
    ∀ (a : List FVal), (∀ v ∈ vols, v.length = L) → a.length = L →
    ∃ s, vols.foldl (fun acc v => some (addVolume acc v)) (some a) = some s ∧
      s.length = L ∧
      ∀ k, k < L → s.getD k (.fin 0) = fadd (a.getD k (.fin 0))
        (fsum (vols.map (fun v => v.getD k (.fin 0)))) := by
  induction vols with
  | nil =>
    intro a _ ha
    exact ⟨a, rfl, ha, fun k _ => by simp [fsum, fadd_fin_zero]⟩
  | cons v vols ih =>
    intro a hL ha
    have hv : v.length = L := hL v (List.mem_cons_self v vols)
    obtain ⟨s, hs, hsl, hsk⟩ := ih (List.zipWith fadd a v)
      (fun w hw => hL w (List.mem_cons_of_mem _ hw))
      (by rw [List.length_zipWith, ha, hv, min_self])
    refine ⟨s, by simpa [addVolume] using hs, hsl, ?_⟩
    intro k hk
    rw [hsk k hk]
    have hkz : k < (List.zipWith fadd a v).length := by
      rw [List.length_zipWith, ha, hv, min_self]; exact hk
    have hz : (List.zipWith fadd a v).getD k (.fin 0) =
        fadd (a.getD k (.fin 0)) (v.getD k (.fin 0)) := by
      rw [List.getD_eq_getElem _ _ hkz,
        List.getD_eq_getElem a _ (by rw [ha]; exact hk),
        List.getD_eq_getElem v _ (by rw [hv]; exact hk)]
      simp [List.getElem_zipWith]
    rw [hz, fadd_assoc]
    simp [fsum]

/-- Entrywise value of the volume accumulation started from the scalar
zero, on a nonempty list of volumes. -/
theorem fold_addVolume_entry (L : ℕ) (vols : List (List FVal))
    (hL : ∀ v ∈ vols, v.length = L) (hne : vols ≠ []) :
    ∃ s, vols.foldl (fun acc v => some (addVolume acc v)) none = some s ∧
      s.length = L ∧
      ∀ k, k < L → s.getD k (.fin 0) =
        fsum (vols.map (fun v => v.getD k (.fin 0))) := by
  cases vols with
  | nil => exact absurd rfl hne
  | cons v vols =>
    have hv : v.length = L := hL v (List.mem_cons_self v vols)
    obtain ⟨s, hs, hsl, hsk⟩ := fold_addVolume_some L vols v
      (fun w hw => hL w (List.mem_cons_of_mem _ hw)) hv
    refine ⟨s, by simpa [addVolume] using hs, hsl, ?_⟩
    intro k hk
    rw [hsk k hk]
    simp [fsum]

/-! ## Claim theorems -/

/-- Claim C1: the dispatcher selects exactly one handler by the ordered
rule: no computation-phase tag found → Initialization (`local_0`);
else `"remote_0"` among the tags → Statistics (`local_1`); else
`"remote_1"` among them → Decomposition (`local_2`); otherwise the run
fails with a protocol error and produces no output. -/
theorem dispatcher_selection_rule (tags : List String) :
    (tags = [] → dispatch tags = .ok .local0) ∧
    (tags ≠ [] → "remote_0" ∈ tags → dispatch tags = .ok .local1) ∧
    (tags ≠ [] → "remote_0" ∉ tags → "remote_1" ∈ tags →
      dispatch tags = .ok .local2) ∧
    (tags ≠ [] → "remote_0" ∉ tags → "remote_1" ∉ tags →
      dispatch tags = .error .protocolError) := by
  refine ⟨fun h => by simp [dispatch, h], fun h1 h2 => by simp [dispatch, h1, h2],
    fun h1 h2 h3 => by simp [dispatch, h1, h2, h3],
    fun h1 h2 h3 => by simp [dispatch, h1, h2, h3]⟩

/-- Witness for C1: the empty tag set selects Initialization, and an
unrecognized tag yields the protocol error. -/
theorem dispatcher_selection_rule_witness :
    dispatch [] = .ok .local0 ∧
    dispatch ["local_0"] = .error .protocolError :=
  ⟨(dispatcher_selection_rule []).1 rfl,
   (dispatcher_selection_rule ["local_0"]).2.2.2 (by decide) (by decide)
     (by decide)⟩

/-- Claim C9: when both `"remote_0"` and `"remote_1"` occur among the
collected computation-phase tags, the dispatcher runs the Statistics
phase (`local_1`): the round-0 tag takes precedence. -/
theorem dispatcher_remote0_precedence (tags : List String)
    (h0 : "remote_0" ∈ tags) (h1 : "remote_1" ∈ tags) :
    dispatch tags = .ok .local1 := by
  have hne : tags ≠ [] := by rintro rfl; simp at h0
  simp [dispatch, hne, h0]

/-- Witness for C9: a message carrying both aggregator tags selects the
Statistics phase. -/
theorem dispatcher_remote0_precedence_witness :
    dispatch ["remote_0", "remote_1"] = .ok .local1 :=
  dispatcher_remote0_precedence ["remote_0", "remote_1"] (by decide) (by decide)

/-- Claim C7: the Statistics phase is deterministic in the cached
matrices: two runs of `local_1` whose design and response matrices
agree emit equal `XtransposeX_local` and `Xtransposey_local`, whatever
the rest of their state. -/
theorem local1_deterministic (ext1 ext2 : L1Ext) (s1 s2 : CacheStore)
    (hX : ext1.biased_X = ext2.biased_X) (hy : ext1.y = ext2.y) :
    (local_1 ext1 s1).1.XtransposeX_local =
        (local_1 ext2 s2).1.XtransposeX_local ∧
    (local_1 ext1 s1).1.Xtransposey_local =
        (local_1 ext2 s2).1.Xtransposey_local := by
  constructor
  · simp [local_1, hX]
  · simp [local_1, hX, hy]

/-- Witness for C7: two runs agreeing on the matrices but differing in
store and carried regularizer produce the same statistics. -/
theorem local1_deterministic_witness :
    (local_1
        { biased_X := [[FVal.fin 1]], y := [[FVal.fin 2]],
          meanY_vector := [], lenY_vector := [], local_stats_list := [],
          X_labels := [], regularizer_l2 := FVal.fin 0 }
        []).1.XtransposeX_local =
      (local_1
        { biased_X := [[FVal.fin 1]], y := [[FVal.fin 2]],
          meanY_vector := [FVal.fin 2], lenY_vector := [FVal.fin 1],
          local_stats_list := [], X_labels := ["const"],
          regularizer_l2 := FVal.fin 1 }
        [("args_file", CVal.jsonBlob "args")]).1.XtransposeX_local ∧
    (local_1
        { biased_X := [[FVal.fin 1]], y := [[FVal.fin 2]],
          meanY_vector := [], lenY_vector := [], local_stats_list := [],
          X_labels := [], regularizer_l2 := FVal.fin 0 }
        []).1.Xtransposey_local =
      (local_1
        { biased_X := [[FVal.fin 1]], y := [[FVal.fin 2]],
          meanY_vector := [FVal.fin 2], lenY_vector := [FVal.fin 1],
          local_stats_list := [], X_labels := ["const"],
          regularizer_l2 := FVal.fin 1 }
        [("args_file", CVal.jsonBlob "args")]).1.Xtransposey_local :=
  local1_deterministic _ _ _ _ rfl rfl

/-- Counterexample to claim C2 as stated: a design matrix carrying a NaN
makes `local_1` complete normally and emit a `XtransposeX_local` that
contains a non-finite value — no data-insufficiency failure occurs and
the NaN is included in the output. -/
theorem local1_nonfinite_output_counterexample :
    matAllFinite ((local_1
        { biased_X := [[FVal.nan]], y := [[FVal.fin 1]],
          meanY_vector := [], lenY_vector := [], local_stats_list := [],
          X_labels := [], regularizer_l2 := FVal.fin 0 }
        []).1.XtransposeX_local) = false := by
  decide

/-- Claim C2 amended: `local_1` performs no NaN/Inf check: it always
completes, and the emitted `XtransposeX_local` and `Xtransposey_local`
are exactly the computed `XᵗX` and `Xᵗy`, any non-finite values
included unchanged. -/
theorem local1_emits_products_unchecked (ext : L1Ext) (store : CacheStore) :
    (local_1 ext store).1.XtransposeX_local =
        calc_XtransposeX_local ext.biased_X ∧
    (local_1 ext store).1.Xtransposey_local =
        calc_Xtransposey_local ext.biased_X ext.y ∧
    matAllFinite (local_1 ext store).1.XtransposeX_local =
        matAllFinite (calc_XtransposeX_local ext.biased_X) :=
  ⟨rfl, rfl, rfl⟩

/-- Claim C6: a successful run of the Decomposition phase leaves the
cache directory exactly as it found it — the entries written by the
earlier phases (`args_file`, the covariates dump, the dependents dump)
are unchanged — and the cache section of its emitted document is
empty. -/
theorem local2_no_cache_writes (input : L2Input) (cacheDict : L2CacheDict)
    (store : CacheStore) (out : L2Output) (doc : PhaseDoc)
    (store' : CacheStore)
    (h : local_2 input cacheDict store = .ok (out, doc, store')) :
    store' = store ∧ doc.cacheSection = [] ∧
    storeRead store' "args_file" = storeRead store "args_file" ∧
    storeRead store' cacheDict.covariates =
        storeRead store cacheDict.covariates ∧
    storeRead store' cacheDict.dependents =
        storeRead store cacheDict.dependents := by
  unfold local_2 at h
  split at h
  · simp only [Except.ok.injEq, Prod.mk.injEq] at h
    obtain ⟨-, hdoc, hstore⟩ := h
    subst hstore
    refine ⟨rfl, ?_, rfl, rfl, rfl⟩
    rw [← hdoc]
  · exact absurd h (by simp)

/-- Witness for C6: a concrete successful `local_2` run on a populated
cache returns that cache unchanged. -/
theorem local2_no_cache_writes_witness :
    ([("X.npy", CVal.matBlob []), ("y.npy", CVal.matBlob [])] : CacheStore) =
        [("X.npy", CVal.matBlob []), ("y.npy", CVal.matBlob [])] ∧
    (PhaseDoc.mk "local_2" []).cacheSection = [] ∧
    storeRead [("X.npy", CVal.matBlob []), ("y.npy", CVal.matBlob [])]
        "args_file" =
      storeRead [("X.npy", CVal.matBlob []), ("y.npy", CVal.matBlob [])]
        "args_file" ∧
    storeRead [("X.npy", CVal.matBlob []), ("y.npy", CVal.matBlob [])]
        (L2CacheDict.mk "X.npy" "y.npy").covariates =
      storeRead [("X.npy", CVal.matBlob []), ("y.npy", CVal.matBlob [])]
        (L2CacheDict.mk "X.npy" "y.npy").covariates ∧
    storeRead [("X.npy", CVal.matBlob []), ("y.npy", CVal.matBlob [])]
        (L2CacheDict.mk "X.npy" "y.npy").dependents =
      storeRead [("X.npy", CVal.matBlob []), ("y.npy", CVal.matBlob [])]
        (L2CacheDict.mk "X.npy" "y.npy").dependents :=
  local2_no_cache_writes ⟨[], []⟩ ⟨"X.npy", "y.npy"⟩
    [("X.npy", CVal.matBlob []), ("y.npy", CVal.matBlob [])]
    ⟨[], [], []⟩ ⟨"local_2", []⟩
    [("X.npy", CVal.matBlob []), ("y.npy", CVal.matBlob [])] rfl

/-- Claim C10: a Decomposition run on cached matrices `X` and `y` emits
`SSE_local` and `SST_local` of length the number of voxels (columns of
`y`), and a `varX_matrix_local` that is `p × p` for `p` the number of
columns of `X`. -/
theorem local2_output_shapes (input : L2Input) (cacheDict : L2CacheDict)
    (store : CacheStore) (X y : List (List FVal))
    (hX : storeRead store cacheDict.covariates = some (.matBlob X))
    (hy : storeRead store cacheDict.dependents = some (.matBlob y)) :
    ∃ out doc store', local_2 input cacheDict store = .ok (out, doc, store') ∧
      out.SSE_local.length = numCols y ∧
      out.SST_local.length = numCols y ∧
      out.varX_matrix_local.length = numCols X ∧
      ∀ row ∈ out.varX_matrix_local, row.length = numCols X := by
  unfold local_2
  rw [hX, hy]
  refine ⟨_, _, _, rfl, ?_, ?_, ?_, ?_⟩
  · simp [local_2_compute]
  · simp [local_2_compute]
  · simp [local_2_compute, matMul, transposeM]
  · intro row hrow
    simp only [local_2_compute, matMul] at hrow
    obtain ⟨ra, -, rfl⟩ := List.mem_map.mp hrow
    simp [transposeM]

/-- Witness for C10: a concrete run with a `2 × 1` design matrix and a
`2 × 1` response matrix. -/
theorem local2_output_shapes_witness :
    ∃ out doc store',
      local_2 ⟨[[FVal.fin 1]], [FVal.fin 1]⟩ ⟨"X.npy", "y.npy"⟩
          [("X.npy", CVal.matBlob [[FVal.fin 1], [FVal.fin 1]]),
           ("y.npy", CVal.matBlob [[FVal.fin 1], [FVal.fin 2]])] =
        .ok (out, doc, store') ∧
      out.SSE_local.length =
          numCols [[FVal.fin 1], [FVal.fin 2]] ∧
      out.SST_local.length =
          numCols [[FVal.fin 1], [FVal.fin 2]] ∧
      out.varX_matrix_local.length =
          numCols [[FVal.fin 1], [FVal.fin 1]] ∧
      ∀ row ∈ out.varX_matrix_local,
        row.length = numCols [[FVal.fin 1], [FVal.fin 1]] :=
  local2_output_shapes _ _ _ _ _ (by decide) (by decide)

/-- The `XᵗX` kernel written as an explicit grid of column dot
products. -/
theorem calc_XtX_range (X : List (List FVal)) :
    calc_XtransposeX_local X =
      (List.range (numCols X)).map (fun j =>
        (List.range (numCols X)).map (fun k => dot (col X j) (col X k))) := by
  simp [calc_XtransposeX_local, matMul, transposeM, Function.comp]

/-- A square grid of values symmetric in its two indices equals its own
transpose. -/
theorem range_grid_symm (p : ℕ) (g : ℕ → ℕ → FVal)
    (hg : ∀ j k, g j k = g k j) :
    (List.range p).map (fun j => (List.range p).map (fun k => g j k)) =
      transposeM
        ((List.range p).map (fun j => (List.range p).map (fun k => g j k))) := by
  have hnc :
      numCols ((List.range p).map (fun j =>
        (List.range p).map (fun k => g j k))) = p := by
    cases p with
    | zero => simp [numCols]
    | succ m => simp [numCols, List.range_succ_eq_map]
  unfold transposeM
  rw [hnc]
  apply List.ext_getElem
  · simp
  · intro j h1 h2
    simp only [List.getElem_map, List.getElem_range]
    apply List.ext_getElem
    · simp [col]
    · intro k hk1 hk2
      have hj : j < p := by simpa using h2
      have hk : k < p := by simpa using hk1
      simp only [List.getElem_map, List.getElem_range, col]
      rw [range_map_getD _ _ _ _ hj]
      exact hg j k

/-- Claim C8: for every design matrix with no duplicated columns, the
computed `XᵗX` equals its own transpose exactly. -/
theorem XtX_symmetric (X : List (List FVal)) (_hnd : noDupCols X) :
    calc_XtransposeX_local X = transposeM (calc_XtransposeX_local X) := by
  rw [calc_XtX_range]
  exact range_grid_symm (numCols X) (fun j k => dot (col X j) (col X k))
    (fun j k => dot_comm _ _)

/-- Witness for C8: a concrete `2 × 2` design matrix with two distinct
columns. -/
theorem XtX_symmetric_witness :
    calc_XtransposeX_local [[FVal.fin 1, FVal.fin 0], [FVal.fin 0, FVal.fin 1]] =
      transposeM
        (calc_XtransposeX_local
          [[FVal.fin 1, FVal.fin 0], [FVal.fin 0, FVal.fin 1]]) :=
  XtX_symmetric [[FVal.fin 1, FVal.fin 0], [FVal.fin 0, FVal.fin 1]] (by decide)

/-- Claim C5: for every voxel `v` below the number of columns of the
cached response matrix, the `SSE_local` entry computed by the
Decomposition phase equals the brute-force sum over the site's
subjects of the squared residual against the global coefficient vector
of that voxel, and the `SST_local` entry equals the brute-force sum of
squared deviations from the global mean of that voxel. -/
theorem local2_decomposition_correct (X y beta : List (List FVal))
    (m : List FVal) (n v : ℕ) (hX : X.length = n) (hy : y.length = n)
    (hv : v < numCols y) :
    (local_2_compute X y beta m).1.getD v (.fin 0) =
      fsum ((List.range n).map (fun i =>
        fsq (fsub (entry y i v) (dot (X.getD i []) (beta.getD v []))))) ∧
    (local_2_compute X y beta m).2.1.getD v (.fin 0) =
      fsum ((List.range n).map (fun i =>
        fsq (fsub (entry y i v) (m.getD v (.fin 0))))) := by
  constructor
  · show ((List.range (numCols y)).map (fun voxel =>
      sum_squared_error X (col y voxel) (beta.getD voxel []))).getD v (.fin 0) = _
    rw [range_map_getD _ _ _ _ hv]
    unfold sum_squared_error
    congr 1
    apply List.ext_getElem
    · simp [col, hX, hy]
    · intro i h1 h2
      have hi : i < n := by
        simp [col, hX, hy] at h1
        omega
      simp only [List.getElem_zipWith, List.getElem_map, List.getElem_range,
        col, entry]
      rw [List.getD_eq_getElem _ _ (by omega : i < X.length),
        List.getD_eq_getElem _ _ (by omega : i < y.length)]
  · show ((List.range (numCols y)).map (fun voxel =>
      fsum ((col y voxel).map (fun yi =>
        fsq (fsub yi (m.getD voxel (.fin 0))))))).getD v (.fin 0) = _
    rw [range_map_getD _ _ _ _ hv]
    congr 1
    apply List.ext_getElem
    · simp [col, hy]
    · intro i h1 h2
      have hi : i < n := by simpa [col, hy] using h1
      simp only [List.getElem_map, List.getElem_range, col, entry]
      rw [List.getD_eq_getElem _ _ (by omega : i < y.length)]

/-- Witness for C5: one subject, one voxel, concrete global parameters. -/
theorem local2_decomposition_correct_witness :
    (local_2_compute [[FVal.fin 1]] [[FVal.fin 3]] [[FVal.fin 2]]
        [FVal.fin 1]).1.getD 0 (.fin 0) =
      fsum ((List.range 1).map (fun i =>
        fsq (fsub (entry [[FVal.fin 3]] i 0)
          (dot (([[FVal.fin 1]] : List (List FVal)).getD i [])
            (([[FVal.fin 2]] : List (List FVal)).getD 0 []))))) ∧
    (local_2_compute [[FVal.fin 1]] [[FVal.fin 3]] [[FVal.fin 2]]
        [FVal.fin 1]).2.1.getD 0 (.fin 0) =
      fsum ((List.range 1).map (fun i =>
        fsq (fsub (entry [[FVal.fin 3]] i 0)
          (([FVal.fin 1] : List FVal).getD 0 (.fin 0))))) :=
  local2_decomposition_correct [[FVal.fin 1]] [[FVal.fin 3]] [[FVal.fin 2]]
    [FVal.fin 1] 1 0 rfl rfl (by decide)

/-- Claim C4: during Initialization, exactly the subjects whose image
loads and passes the validity test are retained — failed loads and
all-NaN, all-zero or empty volumes are dropped silently — and the
produced group average equals, voxel by voxel, the sum of the retained
subjects' images divided by the retained subject count. -/
theorem average_nifti_correct (load : String → Option (List FVal))
    (index : List String) (L : ℕ)
    (hL : ∀ img ∈ index, ∀ v, load img = some v → v.length = L)
    (hne : keptSpec load index ≠ []) :
    ∃ avg, average_nifti load index = .ok (keptSpec load index, avg) ∧
      avg.length = L ∧
      ∀ k, k < L → avg.getD k (.fin 0) =
        fdivNat
          (fsum ((keptSpec load index).map (fun img =>
            ((load img).getD []).getD k (.fin 0))))
          (keptSpec load index).length := by
  have hvols : ∀ w ∈ (keptSpec load index).map (fun img => (load img).getD []),
      w.length = L := by
    intro w hw
    obtain ⟨img, himg, rfl⟩ := List.mem_map.mp hw
    have hmem : img ∈ index := List.mem_of_mem_filter himg
    have hp := List.of_mem_filter himg
    cases hl : load img with
    | none => rw [hl] at hp; simp at hp
    | some v =>
      exact hL img hmem v hl
  have hvne : (keptSpec load index).map (fun img => (load img).getD []) ≠ [] := by
    simpa using hne
  obtain ⟨s, hs, hsl, hsk⟩ := fold_addVolume_entry L _ hvols hvne
  unfold average_nifti
  rw [nifti_loop_eq load index none [], hs]
  simp only [List.nil_append]
  cases hks : keptSpec load index with
  | nil => exact absurd hks hne
  | cons img rest =>
    refine ⟨_, rfl, ?_, ?_⟩
    · simpa using hsl
    · intro k hk
      have hks' : k < s.length := by rw [hsl]; exact hk
      simp only [Option.getD_some]
      rw [List.getD_eq_getElem _ _ (by simpa using hks'), List.getElem_map,
        ← List.getD_eq_getElem s _ hks', hsk k hk, hks]
      simp [Function.comp_def]

/-- Witness for C4: two subjects of whom one is dropped by the all-zero
test; the remaining subject is retained and averaged. -/
theorem average_nifti_correct_witness :
    ∃ avg, average_nifti
        (fun s => some (if s = "a.nii" then [FVal.fin 2] else [FVal.fin 0]))
        ["bad.nii", "a.nii"] =
      .ok (keptSpec
        (fun s => some (if s = "a.nii" then [FVal.fin 2] else [FVal.fin 0]))
        ["bad.nii", "a.nii"], avg) ∧
      avg.length = 1 ∧
      ∀ k, k < 1 → avg.getD k (.fin 0) =
        fdivNat
          (fsum ((keptSpec
            (fun s => some (if s = "a.nii" then [FVal.fin 2] else [FVal.fin 0]))
            ["bad.nii", "a.nii"]).map (fun img =>
              (((fun s => some (if s = "a.nii" then [FVal.fin 2]
                else [FVal.fin 0])) img).getD []).getD k (.fin 0))))
          (keptSpec
            (fun s => some (if s = "a.nii" then [FVal.fin 2] else [FVal.fin 0]))
            ["bad.nii", "a.nii"]).length :=
  average_nifti_correct _ _ 1
    (by
      intro img hm v hv
      rw [← Option.some.inj hv]
      by_cases h : img = "a.nii" <;> simp [h])
    (by decide)

/-- Claim C3: when every subject is excluded by the image-quality
filter, Initialization fails fatally (the `IndexError` of
`covar_x.index[0]`), and that failure is distinguishable from the
dispatcher's protocol error. -/
theorem average_nifti_empty_fails (load : String → Option (List FVal))
    (index : List String) (h : keptSpec load index = []) :
    average_nifti load index = .error .indexError ∧
    LocalError.indexError ≠ LocalError.protocolError := by
  constructor
  · unfold average_nifti
    rw [nifti_loop_eq load index none [], h]
    rfl
  · decide

/-- Witness for C3: a single all-zero subject image empties the table
and the phase fails with the non-protocol error. -/
theorem average_nifti_empty_fails_witness :
    average_nifti (fun _ => some [FVal.fin 0]) ["subj1.nii"] =
        .error .indexError ∧
    LocalError.indexError ≠ LocalError.protocolError :=
  average_nifti_empty_fails (fun _ => some [FVal.fin 0]) ["subj1.nii"]
    (by decide)

end DrneVbm
